import Mathlib

/-!
Shallow embedding of the b2c data-migrations core (migrations engine, state
store adapter, feature deployment) for verifying the natural-language
specification against the code.

Sources embedded:
* `migrations.ts` (`collectMigrations`, `migrateInstance`): the reconciliation
  engine — planning, the per-unit run/commit loop, the state-check branch.
* `state.ts` (`getInstanceState`, `updateInstanceMigrations`,
  `featureStateFromCustomObject`, `updateFeatureState`): the state store
  adapter; we embed its pure record transforms.
* `bootstrap.ts` (`isMigrationBootstrapRequired`): the bootstrap requirement
  consulted by the state check.
* `features.ts` (`deployFeature`): the variable-merge step.

External collaborators (HTTP transport, file system, archive import, logging)
are modelled as oracles/parameters; caller-supplied lifecycle hooks are
modelled by their control-flow-relevant behaviour.
-/

namespace B2CMigrations

/-! ## JSON-ish values and records

JavaScript objects holding migration/feature variables are modelled as
functions from keys to optional values.  A value is a string or a number,
which is all the claims exercise. -/

inductive JSValue where
  | str : String → JSValue
  | num : Int → JSValue
  deriving DecidableEq, Repr

/-- A JavaScript object used as a string-keyed map (insertion order is not
observed by any embedded operation, so a function model is faithful). -/
def RecordMap : Type := String → Option JSValue

/-- Point update of a record, modelling `obj[key] = v` (and deletion for
`none`, modelling `delete obj[key]`). -/
def recordSet (m : RecordMap) (key : String) (v : Option JSValue) : RecordMap :=
  fun k => if k = key then v else m k

/-- The empty object. -/
def emptyRecord : RecordMap := fun _ => none

/-! ## state.ts: instance migration state -/

/-- state.ts line 5: `export const B2C_TOOLKIT_DATA_VERSION = 7`. -/
def B2C_TOOLKIT_DATA_VERSION : Nat := 7

/-- `ToolkitInstanceState` from types.ts as read by `getInstanceState`
(state.ts): `version` is `c_b2cToolkitDataVersion` (null when unset),
`migrations` is the comma-split `c_b2cToolkitMigrations`, `clients` is the
parsed per-client bootstrap registry mapping client id to stamped version.
The free-form `vars` field is not consulted by any embedded operation and is
omitted. -/
structure ToolkitInstanceState where
  version : Option Nat
  migrations : List String
  clients : List (String × Nat)
  deriving DecidableEq, Repr

/-! ## migrations.ts: collectMigrations -/

/-- One `fs.Dirent` as returned by `readdir(dir, withFileTypes)`. -/
structure DirEntry where
  name : String
  isDirectory : Bool
  deriving DecidableEq, Repr

/-- Node `path.extname` compared against `.js` for a plain directory-entry name:
true exactly when the name ends in `.js` and the final dot is not the leading
character (so the bare hidden-file name `.js` has no extension). -/
def hasJsExtension (name : String) : Bool :=
  ".js".data.isSuffixOf name.data && name != ".js"

/-- `collectMigrations` (migrations.ts lines 27-40), with the file system
listing supplied as `entries`, each exclusion regular expression supplied as a
name predicate (`d.name.match(re)`), and the comparator of
`a.localeCompare(b, en, numeric:false)` supplied as the relation `r`
(`r a b` meaning `a` compares less-or-equal to `b`); `Array.prototype.sort`
is modelled by a comparison sort. -/
def collectMigrations (entries : List DirEntry) (exclude : List (String → Bool))
    (r : String → String → Prop) [DecidableRel r] : List String :=
  let selected := entries.filter
    (fun (d : DirEntry) => (d.isDirectory || hasJsExtension d.name)
      && exclude.all (fun re => !(re d.name)))
  let withoutSetup := selected.filter (fun (e : DirEntry) => e.name != "setup.js")
  (withoutSetup.map (fun (d : DirEntry) => d.name)).insertionSort r

/-! ## bootstrap.ts: bootstrap requirement, and migrations.ts: state check -/

/-- JavaScript truthiness of a `number | null` value: falsy when null and
when zero. -/
def jsNumTruthy : Option Nat → Bool
  | none => false
  | some v => decide (v ≠ 0)

/-- `isMigrationBootstrapRequired` from bootstrap.ts: bootstrap is required
when the state is null; or `instanceState.version` is falsy (null or zero) or
below `B2C_TOOLKIT_DATA_VERSION`; or the client id is not a key of
`instanceState.clients`; or the registered version of that client (zero when
missing) is below `B2C_TOOLKIT_DATA_VERSION`.  The `!instanceState.clients`
disjunct of the source is constantly false here because `getInstanceState`
always yields an object for `clients` (an empty record on parse failure), so
it is not modelled as a separate case. -/
def isMigrationBootstrapRequired (clientId : String)
    (state : Option ToolkitInstanceState) : Bool :=
  match state with
  | none => true
  | some s =>
    !jsNumTruthy s.version ||
    decide (s.version.getD 0 < B2C_TOOLKIT_DATA_VERSION) ||
    (s.clients.lookup clientId).isNone ||
    decide ((s.clients.lookup clientId).getD 0 < B2C_TOOLKIT_DATA_VERSION)

/-- Result of the optional `shouldBootstrap` lifecycle hook: absent, returns
a value, or throws. -/
def ShouldBootstrapHook : Type := Option (Except Unit Bool)

/-- Lines 106-120 of migrations.ts: the bootstrap requirement, OR-ed with the
`shouldBootstrap` hook result when the hook is present and the requirement is
not already established; a throwing hook counts as "yes, bootstrap". -/
def bootstrapRequiredWithHook (clientId : String)
    (state : Option ToolkitInstanceState) (hook : ShouldBootstrapHook) : Bool :=
  let req := isMigrationBootstrapRequired clientId state
  if req then req
  else
    match hook with
    | none => req
    | some (Except.ok b) => req || b
    | some (Except.error _) => true

/-- Which branch of the state-check chain (migrations.ts lines 122-137) a run
takes after the bootstrap requirement is computed. -/
inductive StateCheckOutcome where
  | bootstrapForbidden
  | runBootstrap
  | versionSkew
  | readFailed
  | proceed
  deriving DecidableEq, Repr

/-- Lines 122-137 of migrations.ts: bootstrap-forbidden check, then the
bootstrap branch (forced or required), then the version-skew check (guarded by
the JavaScript truthiness of `instanceState.version`, i.e. non-null and
non-zero), then the unreadable-state check. -/
def stateCheck (forceBootstrap allowBootstrap : Bool) (clientId : String)
    (state : Option ToolkitInstanceState) (hook : ShouldBootstrapHook) :
    StateCheckOutcome :=
  let bootstrapRequired := bootstrapRequiredWithHook clientId state hook
  if bootstrapRequired && !allowBootstrap then .bootstrapForbidden
  else if forceBootstrap || bootstrapRequired then .runBootstrap
  else
    match state with
    | some s =>
      match s.version with
      | some v =>
        if v ≠ 0 && decide (v > B2C_TOOLKIT_DATA_VERSION) then .versionSkew
        else .proceed
      | none => .proceed
    | none => .readFailed

/-! ## migrations.ts: the run loop (lines 141-265) -/

/-- `Array.from(new Set(list))`: deduplication keeping the first occurrence
of each element, in order. -/
def jsSetDedup (l : List String) : List String :=
  l.foldl (fun acc a => if a ∈ acc then acc else acc ++ [a]) []

/-- Lines 141-142 of migrations.ts: the pending set is the project catalog
filtered to entries not already applied, preserving catalog order. -/
def migrationsToApply (projectMigrations instanceMigrations : List String) :
    List String :=
  projectMigrations.filter (fun m => !instanceMigrations.contains m)

/-- Facts about one change-unit needed by the loop: whether it is a
directory (impex archive) unit, whether its loaded module is a callable
(for file units), and whether executing it (archive import or script call)
throws. -/
structure UnitInfo where
  isDirectory : Bool
  exportsFunction : Bool
  execThrows : Bool
  deriving DecidableEq, Repr

/-- The control-flow-relevant behaviour of the caller-supplied lifecycle
module: presence and result of `beforeEach`, presence of `onFailure` and
whether the hook itself throws for a given unit. -/
structure LifecycleModel where
  hasBeforeEach : Bool
  beforeEach : String → Bool
  hasOnFailure : Bool
  onFailureThrows : String → Bool

/-- The remote world as seen by the per-commit re-read: `interfere k` is an
external concurrent overwrite of the stored applied list happening before the
re-read of the k-th commit, and `readFails k` says the k-th re-read returns null
(403/404). -/
structure RemoteEnv where
  interfere : Nat → Option (List String)
  readFails : Nat → Bool

/-- Errors that halt the run loop. -/
inductive RunError where
  | invalidUnit (m : String)
  | unitExecution (m : String)
  | onFailureHook (m : String)
  deriving DecidableEq, Repr

/-- Evolving state of the loop: `inMemory` is the local `instanceMigrations`
array, `remote` the currently stored applied list on the instance, `writes`
the trace of `updateInstanceMigrations` calls, `executed` the units whose
import/callable was actually invoked, `ran` the `migrationsRan` list, and
`commits` counts apply-mode commits (indexing the remote oracle). -/
structure LoopState where
  inMemory : List String
  remote : List String
  writes : List (List String)
  executed : List String
  ran : List String
  commits : Nat
  deriving DecidableEq, Repr

/-- Lines 210-220 of migrations.ts: outcome of the execute block for one
unit — a directory unit archive-imports (throwing is an execution error), a
file unit whose module is not a function throws the invalid-migration error,
otherwise the callable is invoked (throwing is an execution error). -/
def execOutcome (info : UnitInfo) (m : String) : Option RunError :=
  if info.isDirectory then
    if info.execThrows then some (.unitExecution m) else none
  else if !info.exportsFunction then some (.invalidUnit m)
  else if info.execThrows then some (.unitExecution m) else none

/-- Whether the execute block actually invokes the unit (the archive import
or the script callable); a non-callable file unit is never invoked. -/
def execInvoked (info : UnitInfo) : Bool :=
  info.isDirectory || info.exportsFunction

/-- Lines 238-253 of migrations.ts: push the unit onto the in-memory applied
list; when `apply` is enabled, re-read the remote state, merge the re-read
applied list with the in-memory one via `Array.from(new Set(...))` when the
re-read succeeds, and write the result back (a full replace). -/
def commitStep (apply : Bool) (env : RemoteEnv) (st : LoopState) (m : String) :
    LoopState :=
  let mem := st.inMemory ++ [m]
  if apply then
    let remoteNow := (env.interfere st.commits).getD st.remote
    let merged :=
      if env.readFails st.commits then mem else jsSetDedup (remoteNow ++ mem)
    { st with
      inMemory := merged
      remote := merged
      writes := st.writes ++ [merged]
      commits := st.commits + 1 }
  else
    { st with inMemory := mem }

/-- Commit plus the bookkeeping at the end of a loop iteration (the
`migrationsRan.push`). -/
def finishUnit (apply : Bool) (env : RemoteEnv) (st : LoopState) (m : String) :
    LoopState :=
  let st' := commitStep apply env st m
  { st' with ran := st'.ran ++ [m] }

/-- One non-dry-run iteration of the migration loop (lines 199-264 of
migrations.ts): consult `beforeEach`, execute unless vetoed, route any thrown
error through `onFailure` when present (a returning hook handles the error and
the unit is still committed; an absent or throwing hook halts the run with the
loop state at that point), then commit. -/
def runOne (apply : Bool) (hooks : LifecycleModel) (env : RemoteEnv)
    (info : String → UnitInfo) (m : String) (st : LoopState) :
    Except (RunError × LoopState) LoopState :=
  let runMigration := if hooks.hasBeforeEach then hooks.beforeEach m else true
  let st1 :=
    if runMigration && execInvoked (info m) then
      { st with executed := st.executed ++ [m] }
    else st
  if runMigration then
    match execOutcome (info m) m with
    | some err =>
      if hooks.hasOnFailure then
        if hooks.onFailureThrows m then .error (.onFailureHook m, st1)
        else .ok (finishUnit apply env st1 m)
      else .error (err, st1)
    | none => .ok (finishUnit apply env st1 m)
  else .ok (finishUnit apply env st1 m)

/-- The migration loop over the pending list (lines 173-265 of
migrations.ts).  Under `dryRun` each iteration short-circuits before
`beforeEach` (the `continue` at line 196), so no execution and no commit
happen. -/
def migrateLoop (apply dryRun : Bool) (hooks : LifecycleModel) (env : RemoteEnv)
    (info : String → UnitInfo) : List String → LoopState →
    Except (RunError × LoopState) LoopState
  | [], st => .ok st
  | m :: rest, st =>
    if dryRun then migrateLoop apply dryRun hooks env info rest st
    else
      match runOne apply hooks env info m st with
      | .error e => .error e
      | .ok st' => migrateLoop apply dryRun hooks env info rest st'

/-- Loop state at the start of the run: the in-memory applied list is the
slice of the migrations of the read state (line 141), the stored remote list is
given, and all traces are empty. -/
def initialLoopState (instanceMigrations remote : List String) : LoopState :=
  { inMemory := instanceMigrations
    remote := remote
    writes := []
    executed := []
    ran := []
    commits := 0 }

/-- Planning plus the run loop, for a run that passed the state check: the
pending list is `migrationsToApply` of the catalog against the applied list
read from the instance, starting from the initial loop state. -/
def migrateRun (apply dryRun : Bool) (hooks : LifecycleModel) (env : RemoteEnv)
    (info : String → UnitInfo) (catalog applied remote : List String) :
    Except (RunError × LoopState) LoopState :=
  migrateLoop apply dryRun hooks env info (migrationsToApply catalog applied)
    (initialLoopState applied remote)

/-- The loop state carried by a run result, whether the run completed or
halted with an error. -/
def resultState : Except (RunError × LoopState) LoopState → LoopState
  | .ok st => st
  | .error (_, st) => st

/-! ## state.ts: feature state records -/

/-- Lines 183-197 of state.ts (`updateFeatureState`): the per-secret-name
transform of the plain and secret target records.  With `saveSecrets` the
value is copied into the secret record and, when defined, replaced in the
plain record by the redaction marker; otherwise a defined value is deleted
from the plain record and the secret record is untouched. -/
def redactSecretStep (saveSecrets : Bool) (tv tsv : RecordMap) (key : String) :
    RecordMap × RecordMap :=
  if saveSecrets then
    let tsv' := recordSet tsv key (tv key)
    let tv' :=
      if (tv key).isSome then recordSet tv key (some (JSValue.str "*****"))
      else tv
    (tv', tsv')
  else if (tv key).isSome then (recordSet tv key none, tsv)
  else (tv, tsv)

/-- The pure record computation of `updateFeatureState` (state.ts lines
183-197): starting from a copy of `vars` and an empty secret record, fold the
per-key transform over the secret-variable names (when the list is given).
The resulting pair is what is serialized into `c_vars` and `c_secretVars`. -/
def updateFeatureStateTargets (vars : RecordMap)
    (secretVars : Option (List String)) (saveSecrets : Bool) :
    RecordMap × RecordMap :=
  match secretVars with
  | none => (vars, emptyRecord)
  | some keys =>
    keys.foldl (fun acc key => redactSecretStep saveSecrets acc.1 acc.2 key)
      (vars, emptyRecord)

/-- Lines 92-99 of state.ts (`featureStateFromCustomObject`): the variables
returned when a feature record is read back are the parsed plain record spread
first and the parsed secret record spread second, so a secret value wins on a
key collision. -/
def featureStateFromCustomObject (plainRec secretRec : RecordMap) : RecordMap :=
  fun k =>
    match secretRec k with
    | some v => some v
    | none => plainRec k

/-! ## features.ts: deployFeature variable merge -/

/-- Lines 167-172 of features.ts (`deployFeature`): merged variables are the
spread of the template defaults, then the remote-stored instance variables,
then the caller-supplied variables — later wins. -/
def deployFeatureMergedVars (defaultVars instanceVars incoming : RecordMap) :
    RecordMap :=
  fun k =>
    match incoming k with
    | some v => some v
    | none =>
      match instanceVars k with
      | some v => some v
      | none => defaultVars k

/-! ## Concrete instantiations used by scenarios and witnesses -/

/-- An absent lifecycle module: no hooks at all. -/
def noHooks : LifecycleModel :=
  { hasBeforeEach := false
    beforeEach := fun _ => true
    hasOnFailure := false
    onFailureThrows := fun _ => false }

/-- A lifecycle module whose only hook is an `onFailure` that returns
without throwing. -/
def handlingHooks : LifecycleModel :=
  { hasBeforeEach := false
    beforeEach := fun _ => true
    hasOnFailure := true
    onFailureThrows := fun _ => false }

/-- A remote with no concurrent writers and no read failures. -/
def quietEnv : RemoteEnv :=
  { interfere := fun _ => none, readFails := fun _ => false }

/-- A remote where, just before the first commit re-read, a concurrent
writer sets the stored applied list to `["A", "B", "C"]`. -/
def mergeEnv : RemoteEnv :=
  { interfere := fun k => if k = 0 then some ["A", "B", "C"] else none
    readFails := fun _ => false }

/-- A directory (impex) unit whose archive import succeeds. -/
def dirUnit : UnitInfo :=
  { isDirectory := true, exportsFunction := false, execThrows := false }

/-- A directory (impex) unit whose archive import throws. -/
def throwingDirUnit : UnitInfo :=
  { isDirectory := true, exportsFunction := false, execThrows := true }

/-- A script unit whose loaded module does not export a function. -/
def invalidUnitInfo : UnitInfo :=
  { isDirectory := false, exportsFunction := false, execThrows := false }

/-- The loop state after the engine commits unit `D` on top of in-memory
applied units `[A, B]` while a concurrent writer has stored `[A, B, C]`. -/
def mergedCommitState : LoopState :=
  { inMemory := ["A", "B", "C", "D"]
    remote := ["A", "B", "C", "D"]
    writes := [["A", "B", "C", "D"]]
    executed := ["D"]
    ran := ["D"]
    commits := 1 }

/-- Concrete variable records of the feature-deployment precedence scenario:
template defaults mapping x to 1. -/
def scenarioDefaults : RecordMap :=
  fun k => if k = "x" then some (JSValue.num 1) else none

/-- Remote-stored instance variables mapping x to 2 and y to 3. -/
def scenarioInstanceVars : RecordMap :=
  fun k =>
    if k = "x" then some (JSValue.num 2)
    else if k = "y" then some (JSValue.num 3)
    else none

/-- Caller-supplied variables mapping y to 4. -/
def scenarioIncoming : RecordMap :=
  fun k => if k = "y" then some (JSValue.num 4) else none

/-- The expected merge result: x maps to 2 and y maps to 4. -/
def scenarioMerged : RecordMap :=
  fun k =>
    if k = "x" then some (JSValue.num 2)
    else if k = "y" then some (JSValue.num 4)
    else none

/-- Variables holding one secret value: token maps to the string abc. -/
def tokenVars : RecordMap :=
  fun k => if k = "token" then some (JSValue.str "abc") else none

/-! ## A kernel-computable model of the collation used by the sort

The comparator of `collectMigrations` is `localeCompare` under the `en`
locale with numeric coercion disabled.  On the plain ASCII names exercised
here it coincides with code-unit lexicographic comparison, which we define
structurally so that concrete catalogs evaluate. -/

/-- Lexicographic less-or-equal on character lists. -/
def charListLeb : List Char → List Char → Bool
  | [], _ => true
  | _ :: _, [] => false
  | a :: as, b :: bs => if a = b then charListLeb as bs else decide (a < b)

/-- Code-unit lexicographic order on strings: the behaviour of
`localeCompare(.., en, numeric:false)` on the ASCII unit names of the
scenarios (no numeric coercion: `10-foo` compares below `2-foo`). -/
def codeUnitLe (a b : String) : Prop := charListLeb a.data b.data = true

instance : DecidableRel codeUnitLe := fun a b =>
  instDecidableEqBool (charListLeb a.data b.data) true

/-- Directory listing used to exercise the collector: two directory units
whose names sort non-numerically, the reserved `setup.js`, a script file, a
non-script file, and a directory matched by an exclusion pattern. -/
def demoEntries : List DirEntry :=
  [{ name := "setup.js", isDirectory := false },
   { name := "b.txt", isDirectory := false },
   { name := "a.js", isDirectory := false },
   { name := "10-foo", isDirectory := true },
   { name := "2-foo", isDirectory := true },
   { name := "skip-me", isDirectory := true }]

/-- The same listing in a different readdir order. -/
def demoEntriesPermuted : List DirEntry :=
  [{ name := "skip-me", isDirectory := true },
   { name := "2-foo", isDirectory := true },
   { name := "10-foo", isDirectory := true },
   { name := "a.js", isDirectory := false },
   { name := "b.txt", isDirectory := false },
   { name := "setup.js", isDirectory := false }]

/-- One exclusion pattern, matching the name `skip-me`. -/
def demoExclude : List (String → Bool) :=
  [fun name => name == "skip-me"]

/-- Invariant carried through the run loop: every identifier in the in-memory
list, the stored remote list and every write satisfies the provenance
predicate `P`; the write trace grows monotonically as sets; every write is
(set-wise) contained in the current in-memory list; and the initially read
applied set `I` is contained in the in-memory list and in every write. -/
def LoopInv (P : String → Prop) (I : Finset String) (st : LoopState) : Prop :=
  (∀ x ∈ st.inMemory, P x) ∧
  (∀ x ∈ st.remote, P x) ∧
  (∀ W ∈ st.writes, ∀ x ∈ W, P x) ∧
  List.Pairwise (fun A B => A.toFinset ⊆ B.toFinset) st.writes ∧
  (∀ W ∈ st.writes, W.toFinset ⊆ st.inMemory.toFinset) ∧
  I ⊆ st.inMemory.toFinset ∧
  (∀ W ∈ st.writes, I ⊆ W.toFinset)

theorem charListLeb_total : ∀ as bs, charListLeb as bs = true ∨ charListLeb bs as = true
  | [], _ => Or.inl rfl
  | _ :: _, [] => Or.inr rfl
  | a :: as, b :: bs => by
    by_cases h : a = b
    · subst h
      simpa [charListLeb] using charListLeb_total as bs
    · rcases lt_or_gt_of_ne h with hlt | hgt
      · exact Or.inl (by simp [charListLeb, h, hlt])
      · exact Or.inr (by simp [charListLeb, Ne.symm h, hgt])

theorem charListLeb_antisymm : ∀ as bs, charListLeb as bs = true →
    charListLeb bs as = true → as = bs
  | [], [], _, _ => rfl
  | [], _ :: _, _, h2 => by simp [charListLeb] at h2
  | _ :: _, [], h1, _ => by simp [charListLeb] at h1
  | a :: as, b :: bs, h1, h2 => by
    by_cases h : a = b
    · subst h
      simp only [charListLeb, if_pos rfl] at h1 h2
      exact congrArg _ (charListLeb_antisymm as bs h1 h2)
    · simp only [charListLeb, if_neg h, if_neg (Ne.symm h), decide_eq_true_eq] at h1 h2
      exact absurd h2 (lt_asymm h1)

theorem charListLeb_trans : ∀ as bs cs, charListLeb as bs = true →
    charListLeb bs cs = true → charListLeb as cs = true
  | [], _, _, _, _ => rfl
  | _ :: _, [], _, h1, _ => by simp [charListLeb] at h1
  | _ :: _, _ :: _, [], _, h2 => by simp [charListLeb] at h2
  | a :: as, b :: bs, c :: cs, h1, h2 => by
    by_cases hab : a = b <;> by_cases hbc : b = c
    · subst hab; subst hbc
      simp only [charListLeb, if_pos rfl] at h1 h2 ⊢
      exact charListLeb_trans as bs cs h1 h2
    · subst hab
      simpa [charListLeb, hbc] using h2
    · subst hbc
      simpa [charListLeb, hab] using h1
    · simp only [charListLeb, if_neg hab, if_neg hbc, decide_eq_true_eq] at h1 h2
      have hac : a < c := lt_trans h1 h2
      simp [charListLeb, ne_of_lt hac, hac]

theorem codeUnitLe_isTotal : IsTotal String codeUnitLe :=
  ⟨fun a b => charListLeb_total a.data b.data⟩

theorem codeUnitLe_isTrans : IsTrans String codeUnitLe :=
  ⟨fun a b c => charListLeb_trans a.data b.data c.data⟩

theorem codeUnitLe_isAntisymm : IsAntisymm String codeUnitLe :=
  ⟨fun a b h1 h2 => String.toList_inj.mp (charListLeb_antisymm a.data b.data h1 h2)⟩

/-! ## Helper lemmas about `jsSetDedup` -/

theorem jsSetDedup_loop_mem (l : List String) :
    ∀ (acc : List String) (x : String),
      x ∈ l.foldl (fun acc a => if a ∈ acc then acc else acc ++ [a]) acc ↔
        x ∈ acc ∨ x ∈ l := by
  induction l with
  | nil => simp
  | cons a l ih =>
    intro acc x
    simp only [List.foldl_cons]
    by_cases h : a ∈ acc
    · rw [if_pos h, ih]
      constructor
      · rintro (hx | hx)
        · exact Or.inl hx
        · exact Or.inr (List.mem_cons_of_mem a hx)
      · rintro (hx | hx)
        · exact Or.inl hx
        · rcases List.mem_cons.mp hx with rfl | hx
          · exact Or.inl h
          · exact Or.inr hx
    · rw [if_neg h, ih]
      simp only [List.mem_append, List.mem_singleton, List.mem_cons]
      tauto

theorem jsSetDedup_mem (l : List String) (x : String) :
    x ∈ jsSetDedup l ↔ x ∈ l := by
  rw [jsSetDedup, jsSetDedup_loop_mem]
  simp

theorem jsSetDedup_loop_nodup (l : List String) :
    ∀ acc : List String, acc.Nodup →
      (l.foldl (fun acc a => if a ∈ acc then acc else acc ++ [a]) acc).Nodup := by
  induction l with
  | nil => intro acc h; simpa using h
  | cons a l ih =>
    intro acc h
    simp only [List.foldl_cons]
    by_cases ha : a ∈ acc
    · rw [if_pos ha]; exact ih acc h
    · rw [if_neg ha]
      refine ih _ (List.nodup_append.mpr ⟨h, List.nodup_singleton a, ?_⟩)
      intro x hx hx'
      rcases List.mem_singleton.mp hx' with rfl
      exact ha hx

theorem jsSetDedup_nodup (l : List String) : (jsSetDedup l).Nodup :=
  jsSetDedup_loop_nodup l [] List.nodup_nil

/-! ## Helper lemmas about the secret-redaction fold -/

theorem redactSecretStep_ne (s : Bool) (tv tsv : RecordMap) (a k : String)
    (h : k ≠ a) :
    (redactSecretStep s tv tsv a).1 k = tv k ∧
    (redactSecretStep s tv tsv a).2 k = tsv k := by
  unfold redactSecretStep recordSet
  cases s with
  | true =>
    by_cases hs : (tv a).isSome <;> simp [hs, h]
  | false =>
    by_cases hs : (tv a).isSome <;> simp [hs, h]

theorem redact_loop_untouched (s : Bool) :
    ∀ (keys : List String) (tv tsv : RecordMap) (k : String), k ∉ keys →
      ((keys.foldl (fun acc key => redactSecretStep s acc.1 acc.2 key) (tv, tsv)).1 k
        = tv k) ∧
      ((keys.foldl (fun acc key => redactSecretStep s acc.1 acc.2 key) (tv, tsv)).2 k
        = tsv k) := by
  intro keys
  induction keys with
  | nil => intro tv tsv k _; exact ⟨rfl, rfl⟩
  | cons a rest ih =>
    intro tv tsv k hk
    have hka : k ≠ a := fun h => hk (h ▸ List.mem_cons_self a rest)
    have hkr : k ∉ rest := fun h => hk (List.mem_cons_of_mem a h)
    simp only [List.foldl_cons]
    have hstep := redactSecretStep_ne s tv tsv a k hka
    rcases ih (redactSecretStep s tv tsv a).1 (redactSecretStep s tv tsv a).2 k hkr
      with ⟨h1, h2⟩
    exact ⟨h1.trans hstep.1, h2.trans hstep.2⟩

theorem redact_loop_processed (s : Bool) :
    ∀ (keys : List String) (tv tsv : RecordMap) (k : String), keys.Nodup →
      k ∈ keys →
      ((keys.foldl (fun acc key => redactSecretStep s acc.1 acc.2 key) (tv, tsv)).1 k
        = if s then (if (tv k).isSome then some (JSValue.str "*****") else none)
          else none) ∧
      ((keys.foldl (fun acc key => redactSecretStep s acc.1 acc.2 key) (tv, tsv)).2 k
        = if s then tv k else tsv k) := by
  intro keys
  induction keys with
  | nil => intro tv tsv k _ hk; exact absurd hk (List.not_mem_nil k)
  | cons a rest ih =>
    intro tv tsv k hnd hk
    simp only [List.foldl_cons]
    by_cases hka : k = a
    · subst hka
      have hkr : k ∉ rest := (List.nodup_cons.mp hnd).1
      rcases redact_loop_untouched s rest (redactSecretStep s tv tsv k).1
        (redactSecretStep s tv tsv k).2 k hkr with ⟨h1, h2⟩
      refine ⟨h1.trans ?_, h2.trans ?_⟩ <;>
        · unfold redactSecretStep recordSet
          cases s with
          | true =>
            rcases hv : tv k with _ | v <;> simp [hv]
          | false =>
            rcases hv : tv k with _ | v <;> simp [hv]
    · have hkr : k ∈ rest := by
        rcases List.mem_cons.mp hk with h | h
        · exact absurd h hka
        · exact h
      have hstep := redactSecretStep_ne s tv tsv a k (hka ·)
      rcases ih (redactSecretStep s tv tsv a).1 (redactSecretStep s tv tsv a).2 k
        (List.nodup_cons.mp hnd).2 hkr with ⟨h1, h2⟩
      rw [h1, h2, hstep.1, hstep.2]
      exact ⟨rfl, rfl⟩

/-! ## Helper lemmas about the commit step and the run loop -/

theorem commitStep_ran (apply : Bool) (env : RemoteEnv) (st : LoopState)
    (m : String) : (commitStep apply env st m).ran = st.ran := by
  unfold commitStep
  cases apply <;> simp

theorem commitStep_executed (apply : Bool) (env : RemoteEnv) (st : LoopState)
    (m : String) : (commitStep apply env st m).executed = st.executed := by
  unfold commitStep
  cases apply <;> simp

theorem finishUnit_ran (apply : Bool) (env : RemoteEnv) (st : LoopState)
    (m : String) : (finishUnit apply env st m).ran = st.ran ++ [m] := by
  show (commitStep apply env st m).ran ++ [m] = st.ran ++ [m]
  rw [commitStep_ran]

theorem finishUnit_executed (apply : Bool) (env : RemoteEnv) (st : LoopState)
    (m : String) : (finishUnit apply env st m).executed = st.executed := by
  show (commitStep apply env st m).executed = st.executed
  exact commitStep_executed apply env st m

theorem commitStep_mem_inMemory (apply : Bool) (env : RemoteEnv)
    (st : LoopState) (m : String) :
    m ∈ (commitStep apply env st m).inMemory := by
  unfold commitStep
  cases apply with
  | false => simp
  | true =>
    by_cases hr : env.readFails st.commits = true
    · simp [hr]
    · simp only [Bool.not_eq_true] at hr
      simp [hr, jsSetDedup_mem]

theorem finishUnit_mem_inMemory (apply : Bool) (env : RemoteEnv)
    (st : LoopState) (m : String) :
    m ∈ (finishUnit apply env st m).inMemory :=
  commitStep_mem_inMemory apply env st m

theorem commitStep_writes_apply (env : RemoteEnv) (st : LoopState) (m : String) :
    ∃ w, (commitStep true env st m).writes = st.writes ++ [w] ∧ m ∈ w ∧
      (commitStep true env st m).inMemory = w ∧
      (commitStep true env st m).remote = w := by
  unfold commitStep
  by_cases hr : env.readFails st.commits = true
  · exact ⟨st.inMemory ++ [m], by simp [hr], by simp [hr], by simp [hr], by simp [hr]⟩
  · simp only [Bool.not_eq_true] at hr
    refine ⟨jsSetDedup ((env.interfere st.commits).getD st.remote ++ (st.inMemory ++ [m])),
      by simp [hr], ?_, by simp [hr], by simp [hr]⟩
    rw [jsSetDedup_mem]
    simp

theorem finishUnit_writes_apply (env : RemoteEnv) (st : LoopState) (m : String) :
    ∃ w, (finishUnit true env st m).writes = st.writes ++ [w] ∧ m ∈ w ∧
      (finishUnit true env st m).inMemory = w := by
  rcases commitStep_writes_apply env st m with ⟨w, h1, h2, h3, _⟩
  exact ⟨w, h1, h2, h3⟩

theorem runOne_success (apply : Bool) (hooks : LifecycleModel) (env : RemoteEnv)
    (info : String → UnitInfo) (m : String) (st : LoopState)
    (hbe : hooks.hasBeforeEach = false)
    (hthrow : (info m).execThrows = false)
    (hinvoked : execInvoked (info m) = true) :
    runOne apply hooks env info m st
      = .ok (finishUnit apply env { st with executed := st.executed ++ [m] } m) := by
  have hout : execOutcome (info m) m = none := by
    unfold execOutcome
    cases hdir : (info m).isDirectory with
    | true => simp [hthrow]
    | false =>
      have hfn : (info m).exportsFunction = true := by
        simpa [execInvoked, hdir] using hinvoked
      simp [hfn, hthrow]
  unfold runOne
  simp [hbe, hinvoked, hout]

theorem runOne_error_noHandler (apply : Bool) (hooks : LifecycleModel)
    (env : RemoteEnv) (info : String → UnitInfo) (m : String) (st : LoopState)
    (err : RunError)
    (hbe : (if hooks.hasBeforeEach then hooks.beforeEach m else true) = true)
    (hout : execOutcome (info m) m = some err)
    (hof : hooks.hasOnFailure = false) :
    runOne apply hooks env info m st
      = .error (err,
          if execInvoked (info m) then { st with executed := st.executed ++ [m] }
          else st) := by
  unfold runOne
  rw [hbe]
  cases hinv : execInvoked (info m) <;> simp [hout, hof, hinv]

theorem runOne_error_handlerThrows (apply : Bool) (hooks : LifecycleModel)
    (env : RemoteEnv) (info : String → UnitInfo) (m : String) (st : LoopState)
    (err : RunError)
    (hbe : (if hooks.hasBeforeEach then hooks.beforeEach m else true) = true)
    (hout : execOutcome (info m) m = some err)
    (hof : hooks.hasOnFailure = true) (hthr : hooks.onFailureThrows m = true) :
    runOne apply hooks env info m st
      = .error (.onFailureHook m,
          if execInvoked (info m) then { st with executed := st.executed ++ [m] }
          else st) := by
  unfold runOne
  rw [hbe]
  cases hinv : execInvoked (info m) <;> simp [hout, hof, hthr, hinv]

theorem runOne_error_handled (apply : Bool) (hooks : LifecycleModel)
    (env : RemoteEnv) (info : String → UnitInfo) (m : String) (st : LoopState)
    (err : RunError)
    (hbe : (if hooks.hasBeforeEach then hooks.beforeEach m else true) = true)
    (hout : execOutcome (info m) m = some err)
    (hof : hooks.hasOnFailure = true) (hthr : hooks.onFailureThrows m = false) :
    runOne apply hooks env info m st
      = .ok (finishUnit apply env
          (if execInvoked (info m) then { st with executed := st.executed ++ [m] }
           else st) m) := by
  unfold runOne
  rw [hbe]
  cases hinv : execInvoked (info m) <;> simp [hout, hof, hthr, hinv]

theorem migrateLoop_cons_error (apply dryRun : Bool) (hooks : LifecycleModel)
    (env : RemoteEnv) (info : String → UnitInfo) (m : String)
    (rest : List String) (st st1 : LoopState) (err : RunError)
    (hdry : dryRun = false)
    (h : runOne apply hooks env info m st = .error (err, st1)) :
    migrateLoop apply dryRun hooks env info (m :: rest) st = .error (err, st1) := by
  unfold migrateLoop
  rw [hdry]
  simp [h]

theorem migrateLoop_cons_ok (apply dryRun : Bool) (hooks : LifecycleModel)
    (env : RemoteEnv) (info : String → UnitInfo) (m : String)
    (rest : List String) (st st1 : LoopState)
    (hdry : dryRun = false)
    (h : runOne apply hooks env info m st = .ok st1) :
    migrateLoop apply dryRun hooks env info (m :: rest) st
      = migrateLoop apply dryRun hooks env info rest st1 := by
  subst hdry
  rw [migrateLoop]
  simp [h]

theorem migrateLoop_runs_all (hooks : LifecycleModel) (env : RemoteEnv)
    (info : String → UnitInfo)
    (hbe : hooks.hasBeforeEach = false) :
    ∀ pending : List String,
      (∀ m ∈ pending, (info m).execThrows = false ∧ execInvoked (info m) = true) →
      ∀ st : LoopState, ∃ st',
        migrateLoop true false hooks env info pending st = .ok st' ∧
        st'.ran = st.ran ++ pending ∧ st'.executed = st.executed ++ pending := by
  intro pending
  induction pending with
  | nil => intro _ st; exact ⟨st, rfl, by simp, by simp⟩
  | cons m rest ih =>
    intro hok st
    rcases hok m (List.mem_cons_self m rest) with ⟨hthrow, hinvoked⟩
    have hstep := runOne_success true hooks env info m st hbe hthrow hinvoked
    rcases ih (fun x hx => hok x (List.mem_cons_of_mem m hx))
      (finishUnit true env { st with executed := st.executed ++ [m] } m)
      with ⟨st', hloop, hran, hexec⟩
    refine ⟨st', ?_, ?_, ?_⟩
    · rw [migrateLoop_cons_ok true false hooks env info m rest st _ rfl hstep]
      exact hloop
    · rw [hran, finishUnit_ran]
      simp
    · rw [hexec, finishUnit_executed]
      simp

/-! ## Invariant of the loop state: provenance and monotone growth of writes -/

theorem commitStep_inv (P : String → Prop) (I : Finset String) (apply : Bool)
    (env : RemoteEnv) (st : LoopState) (m : String)
    (hint : ∀ k l, env.interfere k = some l → ∀ x ∈ l, P x)
    (hm : P m) (h : LoopInv P I st) :
    LoopInv P I (commitStep apply env st m) := by
  obtain ⟨hmem, hrem, hwr, hpair, hwm, hI, hIw⟩ := h
  have hmem' : ∀ x ∈ st.inMemory ++ [m], P x := by
    intro x hx
    rcases List.mem_append.mp hx with hx | hx
    · exact hmem x hx
    · rcases List.mem_singleton.mp hx with rfl
      exact hm
  have hgrow : st.inMemory.toFinset ⊆ (st.inMemory ++ [m]).toFinset := by
    intro x hx
    simp only [List.mem_toFinset, List.mem_append] at hx ⊢
    exact Or.inl (List.mem_toFinset.mp (by simpa using hx))
  cases apply with
  | false =>
    show LoopInv P I { st with inMemory := st.inMemory ++ [m] }
    refine ⟨hmem', hrem, hwr, hpair, ?_, ?_, hIw⟩
    · intro W hW
      exact (hwm W hW).trans hgrow
    · exact hI.trans hgrow
  | true =>
    set remoteNow := (env.interfere st.commits).getD st.remote with hrn
    have hremNow : ∀ x ∈ remoteNow, P x := by
      rcases hi : env.interfere st.commits with _ | l
      · rw [hrn, hi]
        exact hrem
      · rw [hrn, hi]
        exact hint st.commits l hi
    set merged :=
      if env.readFails st.commits then st.inMemory ++ [m]
      else jsSetDedup (remoteNow ++ (st.inMemory ++ [m])) with hmg
    have hmerged : ∀ x ∈ merged, P x := by
      rw [hmg]
      by_cases hr : env.readFails st.commits = true
      · simp only [hr, if_true]
        exact hmem'
      · simp only [Bool.not_eq_true] at hr
        simp only [hr, Bool.false_eq_true, if_false]
        intro x hx
        rcases List.mem_append.mp ((jsSetDedup_mem _ x).mp hx) with hx | hx
        · exact hremNow x hx
        · exact hmem' x hx
    have hsub : (st.inMemory ++ [m]).toFinset ⊆ merged.toFinset := by
      rw [hmg]
      by_cases hr : env.readFails st.commits = true
      · simp [hr]
      · simp only [Bool.not_eq_true] at hr
        simp only [hr, Bool.false_eq_true, if_false]
        intro x hx
        simp only [List.mem_toFinset] at hx ⊢
        rw [jsSetDedup_mem]
        exact List.mem_append.mpr (Or.inr hx)
    have hmemSub : st.inMemory.toFinset ⊆ merged.toFinset := hgrow.trans hsub
    show LoopInv P I
      { st with
        inMemory := merged
        remote := merged
        writes := st.writes ++ [merged]
        commits := st.commits + 1 }
    refine ⟨hmerged, hmerged, ?_, ?_, ?_, ?_, ?_⟩
    · intro W hW
      rcases List.mem_append.mp hW with hW | hW
      · exact hwr W hW
      · rcases List.mem_singleton.mp hW with rfl
        exact hmerged
    · rw [List.pairwise_append]
      refine ⟨hpair, List.pairwise_singleton _ _, ?_⟩
      intro A hA B hB
      rcases List.mem_singleton.mp hB with rfl
      exact (hwm A hA).trans hmemSub
    · intro W hW
      rcases List.mem_append.mp hW with hW | hW
      · exact (hwm W hW).trans hmemSub
      · rcases List.mem_singleton.mp hW with rfl
        exact Finset.Subset.refl _
    · exact hI.trans hmemSub
    · intro W hW
      rcases List.mem_append.mp hW with hW | hW
      · exact hIw W hW
      · rcases List.mem_singleton.mp hW with rfl
        exact hI.trans hmemSub

theorem finishUnit_inv (P : String → Prop) (I : Finset String) (apply : Bool)
    (env : RemoteEnv) (st : LoopState) (m : String)
    (hint : ∀ k l, env.interfere k = some l → ∀ x ∈ l, P x)
    (hm : P m) (h : LoopInv P I st) :
    LoopInv P I (finishUnit apply env st m) :=
  commitStep_inv P I apply env st m hint hm h

theorem loopInv_executed (P : String → Prop) (I : Finset String)
    (st : LoopState) (e : List String) (h : LoopInv P I st) :
    LoopInv P I { st with executed := e } :=
  h

theorem runOne_result_cases (apply : Bool) (hooks : LifecycleModel)
    (env : RemoteEnv) (info : String → UnitInfo) (m : String) (st : LoopState) :
    ∃ st1 : LoopState,
      (st1 = st ∨ st1 = { st with executed := st.executed ++ [m] }) ∧
      (resultState (runOne apply hooks env info m st) = st1 ∨
       resultState (runOne apply hooks env info m st)
         = finishUnit apply env st1 m) := by
  unfold runOne
  by_cases hrm : (if hooks.hasBeforeEach then hooks.beforeEach m else true) = true
  · by_cases hinv : execInvoked (info m) = true
    · refine ⟨{ st with executed := st.executed ++ [m] }, Or.inr rfl, ?_⟩
      simp only [hrm, hinv, Bool.and_self, if_true]
      cases hout : execOutcome (info m) m with
      | none => simp [resultState]
      | some err =>
        by_cases hof : hooks.hasOnFailure = true
        · by_cases hthr : hooks.onFailureThrows m = true
          · simp [hof, hthr, resultState]
          · simp only [Bool.not_eq_true] at hthr
            simp [hof, hthr, resultState]
        · simp only [Bool.not_eq_true] at hof
          simp [hof, resultState]
    · simp only [Bool.not_eq_true] at hinv
      refine ⟨st, Or.inl rfl, ?_⟩
      simp only [hrm, hinv, Bool.and_false, Bool.false_eq_true, if_false, if_true]
      cases hout : execOutcome (info m) m with
      | none => simp [resultState]
      | some err =>
        by_cases hof : hooks.hasOnFailure = true
        · by_cases hthr : hooks.onFailureThrows m = true
          · simp [hof, hthr, resultState]
          · simp only [Bool.not_eq_true] at hthr
            simp [hof, hthr, resultState]
        · simp only [Bool.not_eq_true] at hof
          simp [hof, resultState]
  · simp only [Bool.not_eq_true] at hrm
    refine ⟨st, Or.inl rfl, ?_⟩
    simp [hrm, resultState]

theorem runOne_inv (P : String → Prop) (I : Finset String) (apply : Bool)
    (hooks : LifecycleModel) (env : RemoteEnv) (info : String → UnitInfo)
    (m : String) (st : LoopState)
    (hint : ∀ k l, env.interfere k = some l → ∀ x ∈ l, P x)
    (hm : P m) (h : LoopInv P I st) :
    LoopInv P I (resultState (runOne apply hooks env info m st)) := by
  rcases runOne_result_cases apply hooks env info m st with ⟨st1, hst1, hres⟩
  have h1 : LoopInv P I st1 := by
    rcases hst1 with rfl | rfl
    · exact h
    · exact loopInv_executed P I st _ h
  rcases hres with hres | hres
  · rw [hres]; exact h1
  · rw [hres]; exact finishUnit_inv P I apply env st1 m hint hm h1

theorem migrateLoop_inv (P : String → Prop) (I : Finset String)
    (apply dryRun : Bool) (hooks : LifecycleModel) (env : RemoteEnv)
    (info : String → UnitInfo)
    (hint : ∀ k l, env.interfere k = some l → ∀ x ∈ l, P x) :
    ∀ pending : List String, (∀ m ∈ pending, P m) →
      ∀ st : LoopState, LoopInv P I st →
        LoopInv P I (resultState
          (migrateLoop apply dryRun hooks env info pending st)) := by
  intro pending
  induction pending with
  | nil => intro _ st h; exact h
  | cons m rest ih =>
    intro hP st h
    rw [migrateLoop]
    by_cases hdry : dryRun = true
    · rw [if_pos hdry]
      exact ih (fun x hx => hP x (List.mem_cons_of_mem m hx)) st h
    · simp only [Bool.not_eq_true] at hdry
      subst hdry
      simp only [Bool.false_eq_true, if_false]
      have hro := runOne_inv P I apply hooks env info m st hint
        (hP m (List.mem_cons_self m rest)) h
      cases hr : runOne apply hooks env info m st with
      | error e =>
        rw [hr] at hro
        simpa [hr, resultState] using hro
      | ok st' =>
        rw [hr] at hro
        simp only [resultState] at hro
        simpa [hr] using
          ih (fun x hx => hP x (List.mem_cons_of_mem m hx)) st' hro

theorem finishUnit_writes_eq (apply : Bool) (env : RemoteEnv) (st : LoopState)
    (m : String) :
    (finishUnit apply env st m).writes = (commitStep apply env st m).writes := rfl

theorem finishUnit_inMemory_eq (apply : Bool) (env : RemoteEnv) (st : LoopState)
    (m : String) :
    (finishUnit apply env st m).inMemory = (commitStep apply env st m).inMemory := rfl

theorem finishUnit_remote_eq (apply : Bool) (env : RemoteEnv) (st : LoopState)
    (m : String) :
    (finishUnit apply env st m).remote = (commitStep apply env st m).remote := rfl

theorem runOne_ok_shape (apply : Bool) (hooks : LifecycleModel) (env : RemoteEnv)
    (info : String → UnitInfo) (m : String) (st st' : LoopState)
    (h : runOne apply hooks env info m st = .ok st') :
    ∃ st1 : LoopState,
      (st1 = st ∨ st1 = { st with executed := st.executed ++ [m] }) ∧
      st' = finishUnit apply env st1 m ∧
      st1.commits = st.commits ∧ st1.inMemory = st.inMemory ∧
      st1.remote = st.remote ∧ st1.writes = st.writes := by
  unfold runOne at h
  by_cases hrm : (if hooks.hasBeforeEach then hooks.beforeEach m else true) = true
  · by_cases hinv : execInvoked (info m) = true
    · rw [hrm] at h
      simp only [hinv, Bool.and_self, if_true] at h
      cases hout : execOutcome (info m) m with
      | none =>
        rw [hout] at h
        simp only [Except.ok.injEq] at h
        exact ⟨_, Or.inr rfl, h.symm, rfl, rfl, rfl, rfl⟩
      | some err =>
        rw [hout] at h
        by_cases hof : hooks.hasOnFailure = true
        · by_cases hthr : hooks.onFailureThrows m = true
          · simp [hof, hthr] at h
          · simp only [Bool.not_eq_true] at hthr
            simp only [hof, if_true, hthr, Bool.false_eq_true, if_false,
              Except.ok.injEq] at h
            exact ⟨_, Or.inr rfl, h.symm, rfl, rfl, rfl, rfl⟩
        · simp only [Bool.not_eq_true] at hof
          simp [hof] at h
    · simp only [Bool.not_eq_true] at hinv
      rw [hrm] at h
      simp only [hinv, Bool.and_false, Bool.false_eq_true, if_false, if_true] at h
      cases hout : execOutcome (info m) m with
      | none =>
        rw [hout] at h
        simp only [Except.ok.injEq] at h
        exact ⟨st, Or.inl rfl, h.symm, rfl, rfl, rfl, rfl⟩
      | some err =>
        rw [hout] at h
        by_cases hof : hooks.hasOnFailure = true
        · by_cases hthr : hooks.onFailureThrows m = true
          · simp [hof, hthr] at h
          · simp only [Bool.not_eq_true] at hthr
            simp only [hof, if_true, hthr, Bool.false_eq_true, if_false,
              Except.ok.injEq] at h
            exact ⟨st, Or.inl rfl, h.symm, rfl, rfl, rfl, rfl⟩
        · simp only [Bool.not_eq_true] at hof
          simp [hof] at h
  · simp only [Bool.not_eq_true] at hrm
    rw [hrm] at h
    simp only [Bool.false_eq_true, if_false, Bool.false_and, Except.ok.injEq] at h
    exact ⟨st, Or.inl rfl, h.symm, rfl, rfl, rfl, rfl⟩

/-! ## The claims -/

/-- C1: at every per-unit commit with apply enabled whose re-read succeeds,
the engine writes to the remote store exactly the deduplicated union of the
freshly re-read remote applied set and its in-memory applied set (with the
just-committed unit appended); in particular, committing `D` over in-memory
`[A, B]` while a concurrent writer has stored `[A, B, C]` writes the set
equal to `[A, B, C, D]` regardless of ordering within the set. -/
theorem commit_writes_deduped_union (hooks : LifecycleModel) (env : RemoteEnv)
    (info : String → UnitInfo) (m : String) (st st' : LoopState)
    (hread : env.readFails st.commits = false)
    (hrun : runOne true hooks env info m st = .ok st') :
    ∃ w, st'.writes = st.writes ++ [w] ∧ w.Nodup ∧
      (∀ x, x ∈ w ↔
        x ∈ (env.interfere st.commits).getD st.remote ∨ x ∈ st.inMemory ++ [m]) ∧
      st'.remote = w ∧ st'.inMemory = w := by
  rcases runOne_ok_shape true hooks env info m st st' hrun
    with ⟨st1, _, rfl, hc, hm1, hr1, hw1⟩
  have hcs : commitStep true env st1 m
      = { st1 with
          inMemory := jsSetDedup
            ((env.interfere st.commits).getD st.remote ++ (st.inMemory ++ [m]))
          remote := jsSetDedup
            ((env.interfere st.commits).getD st.remote ++ (st.inMemory ++ [m]))
          writes := st1.writes ++ [jsSetDedup
            ((env.interfere st.commits).getD st.remote ++ (st.inMemory ++ [m]))]
          commits := st1.commits + 1 } := by
    unfold commitStep
    rw [hc, hm1, hr1, hread]
    simp
  refine ⟨jsSetDedup ((env.interfere st.commits).getD st.remote
      ++ (st.inMemory ++ [m])), ?_, jsSetDedup_nodup _, ?_, ?_, ?_⟩
  · rw [finishUnit_writes_eq, hcs, hw1]
  · intro x
    rw [jsSetDedup_mem]
    exact List.mem_append
  · rw [finishUnit_remote_eq, hcs]
  · rw [finishUnit_inMemory_eq, hcs]

/-- C1 witness: the concrete merge scenario — remote applied units re-read as
`[A, B, C]` (concurrent writer) while the engine commits `D` over in-memory
`[A, B]`; the written set is exactly the union. -/
theorem commit_writes_deduped_union_witness :
    mergeEnv.readFails 0 = false ∧
    runOne true noHooks mergeEnv (fun _ => dirUnit) "D"
      (initialLoopState ["A", "B"] ["A", "B"]) = .ok mergedCommitState ∧
    (∃ w, mergedCommitState.writes = [] ++ [w] ∧ w.Nodup ∧
      (∀ x, x ∈ w ↔ x ∈ ["A", "B", "C"] ∨ x ∈ ["A", "B"] ++ ["D"]) ∧
      mergedCommitState.remote = w ∧ mergedCommitState.inMemory = w) :=
  ⟨rfl, rfl,
    commit_writes_deduped_union noHooks mergeEnv (fun _ => dirUnit) "D"
      (initialLoopState ["A", "B"] ["A", "B"]) mergedCommitState rfl rfl⟩

/-- C2: the set of units the engine attempts to run is exactly the catalog
entries not present in the remote applied list, processed in catalog order;
with catalog `[0001-a, 0002-b]` and remote applied `[0001-a]`, exactly
`0002-b` executes and is committed, and the final written applied list is
`[0001-a, 0002-b]`. -/
theorem migrateInstance_pending_execution (hooks : LifecycleModel)
    (env : RemoteEnv) (info : String → UnitInfo)
    (catalog applied remote : List String)
    (hbe : hooks.hasBeforeEach = false)
    (hok : ∀ m ∈ migrationsToApply catalog applied,
      (info m).execThrows = false ∧ execInvoked (info m) = true) :
    (∀ m, m ∈ migrationsToApply catalog applied ↔ m ∈ catalog ∧ m ∉ applied) ∧
    (migrationsToApply catalog applied).Sublist catalog ∧
    (∃ st', migrateRun true false hooks env info catalog applied remote = .ok st' ∧
      st'.ran = migrationsToApply catalog applied ∧
      st'.executed = migrationsToApply catalog applied) ∧
    migrateRun true false noHooks quietEnv (fun _ => dirUnit)
      ["0001-a", "0002-b"] ["0001-a"] ["0001-a"]
      = .ok { inMemory := ["0001-a", "0002-b"], remote := ["0001-a", "0002-b"],
              writes := [["0001-a", "0002-b"]], executed := ["0002-b"],
              ran := ["0002-b"], commits := 1 } := by
  refine ⟨?_, List.filter_sublist _, ?_, rfl⟩
  · intro m
    simp [migrationsToApply, List.mem_filter]
  · rcases migrateLoop_runs_all hooks env info hbe
      (migrationsToApply catalog applied) hok
      (initialLoopState applied remote) with ⟨st', hloop, hran, hexec⟩
    refine ⟨st', hloop, ?_, ?_⟩
    · rw [hran]; rfl
    · rw [hexec]; rfl

/-- C2 witness: the concrete catalog/applied scenario of the claim. -/
theorem migrateInstance_pending_execution_witness :
    noHooks.hasBeforeEach = false ∧
    (∀ m ∈ migrationsToApply ["0001-a", "0002-b"] ["0001-a"],
      ((fun _ => dirUnit) m : UnitInfo).execThrows = false ∧
      execInvoked ((fun _ => dirUnit) m) = true) ∧
    (∀ m, m ∈ migrationsToApply ["0001-a", "0002-b"] ["0001-a"] ↔
      m ∈ ["0001-a", "0002-b"] ∧ m ∉ (["0001-a"] : List String)) :=
  ⟨rfl, by decide,
    (migrateInstance_pending_execution noHooks quietEnv (fun _ => dirUnit)
      ["0001-a", "0002-b"] ["0001-a"] ["0001-a"] rfl (by decide)).1⟩

/-- C3 counterexample: a file unit whose module does not export a function
(`execOutcome` is the invalid-unit error) is handled by a present, returning
`onFailure` hook — the run does not halt, and the unit is committed. -/
theorem invalidUnit_recovered_counterexample :
    migrateLoop true false handlingHooks quietEnv (fun _ => invalidUnitInfo)
      ["u"] (initialLoopState [] [])
      = .ok { inMemory := ["u"], remote := ["u"], writes := [["u"]],
              executed := [], ran := ["u"], commits := 1 } ∧
    execOutcome invalidUnitInfo "u" = some (.invalidUnit "u") ∧
    handlingHooks.hasOnFailure = true :=
  ⟨rfl, rfl, rfl⟩

/-- C3 amended: a unit whose loaded module does not export a function raises
the fatal invalid-unit error, halting without committing the unit, whenever no
`onFailure` hook exists or the hook itself throws; a present `onFailure` hook
that returns treats it like any execution failure, so the unit is committed
and the run continues.  In no case is the unit silently executed. -/
theorem invalidUnit_fatal_without_handler (hooks : LifecycleModel)
    (env : RemoteEnv) (info : String → UnitInfo) (m : String)
    (rest : List String) (st : LoopState)
    (hdir : (info m).isDirectory = false)
    (hfn : (info m).exportsFunction = false)
    (hbe : (if hooks.hasBeforeEach then hooks.beforeEach m else true) = true) :
    (hooks.hasOnFailure = false →
      migrateLoop true false hooks env info (m :: rest) st
        = .error (.invalidUnit m, st)) ∧
    (hooks.hasOnFailure = true → hooks.onFailureThrows m = true →
      migrateLoop true false hooks env info (m :: rest) st
        = .error (.onFailureHook m, st)) ∧
    (hooks.hasOnFailure = true → hooks.onFailureThrows m = false →
      migrateLoop true false hooks env info (m :: rest) st
        = migrateLoop true false hooks env info rest (finishUnit true env st m) ∧
      m ∈ (finishUnit true env st m).inMemory) ∧
    execInvoked (info m) = false := by
  have hinv : execInvoked (info m) = false := by
    simp [execInvoked, hdir, hfn]
  have hout : execOutcome (info m) m = some (.invalidUnit m) := by
    simp [execOutcome, hdir, hfn]
  refine ⟨?_, ?_, ?_, hinv⟩
  · intro hof
    have h := runOne_error_noHandler true hooks env info m st _ hbe hout hof
    rw [hinv] at h
    simp only [Bool.false_eq_true, if_false] at h
    exact migrateLoop_cons_error true false hooks env info m rest st st _ rfl h
  · intro hof hthr
    have h := runOne_error_handlerThrows true hooks env info m st _ hbe hout hof hthr
    rw [hinv] at h
    simp only [Bool.false_eq_true, if_false] at h
    exact migrateLoop_cons_error true false hooks env info m rest st st _ rfl h
  · intro hof hthr
    have h := runOne_error_handled true hooks env info m st _ hbe hout hof hthr
    rw [hinv] at h
    simp only [Bool.false_eq_true, if_false] at h
    exact ⟨migrateLoop_cons_ok true false hooks env info m rest st _ rfl h,
      finishUnit_mem_inMemory true env st m⟩

/-- C3 amended witness: with no hooks at all, an invalid file unit halts the
run immediately with the invalid-unit error and no commit. -/
theorem invalidUnit_fatal_without_handler_witness :
    invalidUnitInfo.isDirectory = false ∧
    invalidUnitInfo.exportsFunction = false ∧
    (if noHooks.hasBeforeEach then noHooks.beforeEach "u" else true) = true ∧
    (noHooks.hasOnFailure = false →
      migrateLoop true false noHooks quietEnv (fun _ => invalidUnitInfo)
        ["u", "v"] (initialLoopState [] [])
        = .error (.invalidUnit "u", initialLoopState [] [])) :=
  ⟨rfl, rfl, rfl,
    (invalidUnit_fatal_without_handler noHooks quietEnv (fun _ => invalidUnitInfo)
      "u" ["v"] (initialLoopState [] []) rfl rfl rfl).1⟩

/-- C4: when executing a pending unit throws — if an `onFailure` hook exists
and returns without throwing, the error is handled, the unit is still
committed as applied, and the run continues with the remaining units; if no
hook exists, or the hook itself throws, the error propagates, the run halts
immediately, that unit is not committed (the write trace is unchanged), and
units committed before the failure remain committed. -/
theorem unitExecution_failure_semantics (hooks : LifecycleModel)
    (env : RemoteEnv) (info : String → UnitInfo) (m : String)
    (rest : List String) (st : LoopState)
    (hbe : (if hooks.hasBeforeEach then hooks.beforeEach m else true) = true)
    (hthrow : (info m).execThrows = true)
    (hinvoked : execInvoked (info m) = true) :
    (hooks.hasOnFailure = true → hooks.onFailureThrows m = false →
      migrateLoop true false hooks env info (m :: rest) st
        = migrateLoop true false hooks env info rest
            (finishUnit true env { st with executed := st.executed ++ [m] } m) ∧
      m ∈ (finishUnit true env { st with executed := st.executed ++ [m] } m).inMemory ∧
      ∃ w, (finishUnit true env { st with executed := st.executed ++ [m] } m).writes
          = st.writes ++ [w] ∧ m ∈ w) ∧
    (hooks.hasOnFailure = false →
      migrateLoop true false hooks env info (m :: rest) st
        = .error (.unitExecution m, { st with executed := st.executed ++ [m] }) ∧
      ({ st with executed := st.executed ++ [m] } : LoopState).writes = st.writes) ∧
    (hooks.hasOnFailure = true → hooks.onFailureThrows m = true →
      migrateLoop true false hooks env info (m :: rest) st
        = .error (.onFailureHook m, { st with executed := st.executed ++ [m] }) ∧
      ({ st with executed := st.executed ++ [m] } : LoopState).writes = st.writes) := by
  have hout : execOutcome (info m) m = some (.unitExecution m) := by
    unfold execOutcome
    cases hdir : (info m).isDirectory with
    | true => simp [hthrow]
    | false =>
      have hfn : (info m).exportsFunction = true := by
        simpa [execInvoked, hdir] using hinvoked
      simp [hfn, hthrow]
  refine ⟨?_, ?_, ?_⟩
  · intro hof hthr
    have h := runOne_error_handled true hooks env info m st _ hbe hout hof hthr
    rw [hinvoked] at h
    simp only [if_true] at h
    refine ⟨migrateLoop_cons_ok true false hooks env info m rest st _ rfl h,
      finishUnit_mem_inMemory true env _ m, ?_⟩
    rcases finishUnit_writes_apply env { st with executed := st.executed ++ [m] } m
      with ⟨w, hw, hmw, _⟩
    exact ⟨w, hw, hmw⟩
  · intro hof
    have h := runOne_error_noHandler true hooks env info m st _ hbe hout hof
    rw [hinvoked] at h
    simp only [if_true] at h
    exact ⟨migrateLoop_cons_error true false hooks env info m rest st _ _ rfl h, rfl⟩
  · intro hof hthr
    have h := runOne_error_handlerThrows true hooks env info m st _ hbe hout hof hthr
    rw [hinvoked] at h
    simp only [if_true] at h
    exact ⟨migrateLoop_cons_error true false hooks env info m rest st _ _ rfl h, rfl⟩

/-- C4 witness: a throwing directory unit with no `onFailure` hook halts the
run with the execution error; the prior write trace is untouched. -/
theorem unitExecution_failure_semantics_witness :
    (if noHooks.hasBeforeEach then noHooks.beforeEach "u" else true) = true ∧
    throwingDirUnit.execThrows = true ∧
    execInvoked throwingDirUnit = true ∧
    (noHooks.hasOnFailure = false →
      migrateLoop true false noHooks quietEnv (fun _ => throwingDirUnit)
        ["u", "v"] (initialLoopState ["p"] ["p"])
        = .error (.unitExecution "u",
            { initialLoopState ["p"] ["p"] with
              executed := (initialLoopState ["p"] ["p"]).executed ++ ["u"] }) ∧
      ({ initialLoopState ["p"] ["p"] with
         executed := (initialLoopState ["p"] ["p"]).executed ++ ["u"] }
           : LoopState).writes = (initialLoopState ["p"] ["p"]).writes) :=
  ⟨rfl, rfl, rfl,
    (unitExecution_failure_semantics noHooks quietEnv (fun _ => throwingDirUnit)
      "u" ["v"] (initialLoopState ["p"] ["p"]) rfl rfl rfl).2.1⟩

/-- C5 counterexample: with `forceBootstrap` set, a remote schema version
strictly greater than the expected version (8 against 7) does not fail fast
with a version-skew error — the state check takes the bootstrap branch even
though bootstrap is not required, so the claimed behaviour does not hold
regardless of option flags. -/
theorem versionSkew_bypassed_counterexample :
    stateCheck true true "c"
      (some { version := some 8, migrations := [], clients := [("c", 7)] }) none
      = StateCheckOutcome.runBootstrap ∧
    stateCheck true true "c"
      (some { version := some 8, migrations := [], clients := [("c", 7)] }) none
      ≠ StateCheckOutcome.versionSkew ∧
    B2C_TOOLKIT_DATA_VERSION < 8 ∧
    isMigrationBootstrapRequired "c"
      (some { version := some 8, migrations := [], clients := [("c", 7)] })
      = false := by
  refine ⟨by decide, by decide, by decide, by decide⟩

/-- C5 amended: when bootstrap is neither required (after consulting the
`shouldBootstrap` hook) nor forced, a remote schema version strictly greater
than the expected `B2C_TOOLKIT_DATA_VERSION` makes the run fail fast with the
version-skew error before any reconciliation. -/
theorem versionSkew_when_not_bootstrapping (allow : Bool) (clientId : String)
    (s : ToolkitInstanceState) (hook : ShouldBootstrapHook) (v : Nat)
    (hreq : bootstrapRequiredWithHook clientId (some s) hook = false)
    (hv : s.version = some v) (hgt : B2C_TOOLKIT_DATA_VERSION < v) :
    stateCheck false allow clientId (some s) hook
      = StateCheckOutcome.versionSkew := by
  have hne : v ≠ 0 := by
    intro h
    rw [h] at hgt
    exact absurd hgt (by decide)
  simp [stateCheck, hreq, hv, hne, hgt]

/-- C5 amended witness: remote at version 8, identity already registered at
the expected version 7, no hook, no forcing — the state check fails with the
version-skew outcome. -/
theorem versionSkew_when_not_bootstrapping_witness :
    bootstrapRequiredWithHook "c"
      (some { version := some 8, migrations := [], clients := [("c", 7)] }) none
      = false ∧
    ({ version := some 8, migrations := [], clients := [("c", 7)] }
      : ToolkitInstanceState).version = some 8 ∧
    B2C_TOOLKIT_DATA_VERSION < 8 ∧
    stateCheck false true "c"
      (some { version := some 8, migrations := [], clients := [("c", 7)] }) none
      = StateCheckOutcome.versionSkew :=
  ⟨by decide, rfl, by decide,
    versionSkew_when_not_bootstrapping true "c"
      { version := some 8, migrations := [], clients := [("c", 7)] } none 8
      (by decide) rfl (by decide)⟩

/-- C6: for every directory listing and exclusion-pattern list, the collector
returns exactly the entry names that are sub-directories or files carrying the
`.js` script extension, minus the reserved `setup.js` and minus any name
matching an exclusion pattern, sorted ascending by the (total, antisymmetric,
transitive) comparator with no numeric coercion; re-running it on the same
entries — in any readdir order — yields the identical sequence. -/
theorem collectMigrations_contract (entries entries' : List DirEntry)
    (exclude : List (String → Bool)) (r : String → String → Prop)
    [DecidableRel r]
    (ht : IsTotal String r) (htr : IsTrans String r) (ha : IsAntisymm String r)
    (hperm : entries.Perm entries') :
    (∀ x, x ∈ collectMigrations entries exclude r ↔
      ∃ d ∈ entries, d.name = x ∧
        (d.isDirectory = true ∨ hasJsExtension x = true) ∧
        x ≠ "setup.js" ∧ ∀ re ∈ exclude, re x = false) ∧
    (collectMigrations entries exclude r).Sorted r ∧
    collectMigrations entries exclude r
      = collectMigrations entries' exclude r := by
  haveI := ht
  haveI := htr
  haveI := ha
  refine ⟨?_, ?_, ?_⟩
  · intro x
    unfold collectMigrations
    simp only [List.mem_insertionSort, List.mem_map, List.mem_filter,
      Bool.and_eq_true, Bool.or_eq_true, List.all_eq_true, Bool.not_eq_true',
      bne_iff_ne, ne_eq]
    constructor
    · rintro ⟨d, ⟨⟨hd, hkind, hexc⟩, hsetup⟩, rfl⟩
      exact ⟨d, hd, rfl, hkind, hsetup, hexc⟩
    · rintro ⟨d, hd, rfl, hkind, hsetup, hexc⟩
      exact ⟨d, ⟨⟨hd, hkind, hexc⟩, hsetup⟩, rfl⟩
  · exact List.sorted_insertionSort r _
  · unfold collectMigrations
    apply List.eq_of_perm_of_sorted ?_ (List.sorted_insertionSort r _)
      (List.sorted_insertionSort r _)
    exact (List.perm_insertionSort r _).trans
      ((((hperm.filter _).filter _).map _).trans
        (List.perm_insertionSort r _).symm)

/-- C6 witness: on the demo listing — in either readdir order — the collector
keeps the two directories and the script file, drops `setup.js`, the non-script
file and the excluded name, and sorts `10-foo` before `2-foo` because string
comparison (no numeric coercion) says so. -/
theorem collectMigrations_contract_witness :
    IsTotal String codeUnitLe ∧ IsTrans String codeUnitLe ∧
    IsAntisymm String codeUnitLe ∧
    demoEntries.Perm demoEntriesPermuted ∧
    collectMigrations demoEntries demoExclude codeUnitLe
      = ["10-foo", "2-foo", "a.js"] ∧
    (collectMigrations demoEntries demoExclude codeUnitLe).Sorted codeUnitLe ∧
    collectMigrations demoEntries demoExclude codeUnitLe
      = collectMigrations demoEntriesPermuted demoExclude codeUnitLe :=
  ⟨codeUnitLe_isTotal, codeUnitLe_isTrans, codeUnitLe_isAntisymm, by decide,
    by decide,
    (collectMigrations_contract demoEntries demoEntriesPermuted demoExclude
      codeUnitLe codeUnitLe_isTotal codeUnitLe_isTrans codeUnitLe_isAntisymm
      (by decide)).2.1,
    (collectMigrations_contract demoEntries demoEntriesPermuted demoExclude
      codeUnitLe codeUnitLe_isTotal codeUnitLe_isTrans codeUnitLe_isAntisymm
      (by decide)).2.2⟩

/-- C7: across any run — completed or halted mid-way — the write trace of the
persisted applied list grows monotonically as sets (so its size never
decreases), every write contains the applied set read at the start of the run,
and every identifier in every write either came from a read of the remote
state (initial read, stored list, or a concurrent write absorbed by a commit
re-read) or is a catalog entry — i.e. every identifier the engine itself adds
was present in the local catalog. -/
theorem appliedUnits_monotone_and_catalog_provenance (apply dryRun : Bool)
    (hooks : LifecycleModel) (env : RemoteEnv) (info : String → UnitInfo)
    (catalog applied remote : List String) :
    List.Pairwise (fun A B => A.toFinset ⊆ B.toFinset)
      (resultState (migrateRun apply dryRun hooks env info catalog applied
        remote)).writes ∧
    List.Pairwise (fun A B => A.toFinset.card ≤ B.toFinset.card)
      (resultState (migrateRun apply dryRun hooks env info catalog applied
        remote)).writes ∧
    (∀ W ∈ (resultState (migrateRun apply dryRun hooks env info catalog applied
        remote)).writes, applied.toFinset ⊆ W.toFinset) ∧
    (∀ W ∈ (resultState (migrateRun apply dryRun hooks env info catalog applied
        remote)).writes, ∀ x ∈ W,
      x ∈ applied ∨ x ∈ remote ∨
      (∃ k l, env.interfere k = some l ∧ x ∈ l) ∨ x ∈ catalog) := by
  have hinv := migrateLoop_inv
    (fun x => x ∈ applied ∨ x ∈ remote ∨
      (∃ k l, env.interfere k = some l ∧ x ∈ l) ∨ x ∈ catalog)
    applied.toFinset apply dryRun hooks env info
    (fun k l hkl x hx => Or.inr (Or.inr (Or.inl ⟨k, l, hkl, hx⟩)))
    (migrationsToApply catalog applied)
    (fun m hm => Or.inr (Or.inr (Or.inr (List.mem_of_mem_filter hm))))
    (initialLoopState applied remote)
    ⟨fun x hx => Or.inl hx,
     fun x hx => Or.inr (Or.inl hx),
     fun W hW => absurd hW (List.not_mem_nil W),
     List.Pairwise.nil,
     fun W hW => absurd hW (List.not_mem_nil W),
     fun x hx => hx,
     fun W hW => absurd hW (List.not_mem_nil W)⟩
  obtain ⟨_, _, hwr, hpair, _, _, hIw⟩ := hinv
  exact ⟨hpair, hpair.imp (fun h => Finset.card_le_card h), hIw, hwr⟩

/-- C7 witness: in the concurrent-merge scenario the single write contains the
initially read applied set, and the externally added identifier `C` is traced
back to a concurrent write rather than to the catalog. -/
theorem appliedUnits_monotone_witness :
    ["A", "B", "C", "D"] ∈ (resultState (migrateRun true false noHooks mergeEnv
      (fun _ => dirUnit) ["A", "B", "D"] ["A", "B"] ["A", "B"])).writes ∧
    ("C" : String) ∈ (["A", "B", "C", "D"] : List String) ∧
    (["A", "B"] : List String).toFinset
      ⊆ (["A", "B", "C", "D"] : List String).toFinset ∧
    (("C" : String) ∈ (["A", "B"] : List String) ∨ ("C" : String) ∈ (["A", "B"] : List String) ∨
      (∃ k l, mergeEnv.interfere k = some l ∧ ("C" : String) ∈ l) ∨
      ("C" : String) ∈ (["A", "B", "D"] : List String)) :=
  ⟨by decide, by decide,
    (appliedUnits_monotone_and_catalog_provenance true false noHooks mergeEnv
      (fun _ => dirUnit) ["A", "B", "D"] ["A", "B"] ["A", "B"]).2.2.1
      ["A", "B", "C", "D"] (by decide),
    (appliedUnits_monotone_and_catalog_provenance true false noHooks mergeEnv
      (fun _ => dirUnit) ["A", "B", "D"] ["A", "B"] ["A", "B"]).2.2.2
      ["A", "B", "C", "D"] (by decide) "C" (by decide)⟩

/-- C8: with a secret-name list and `saveSecrets` enabled, each defined secret
value is moved into the separate secret-bearing record and replaced in the
plain record by the redaction marker (so the value is not reconstructible from
the plain record); with `saveSecrets` disabled the key is dropped from the
plain record and never written to the secret record; non-secret keys pass
through unchanged and never reach the secret record. -/
theorem updateFeatureState_secret_redaction (vars : RecordMap)
    (names : List String) (key : String) (hnd : names.Nodup) :
    (key ∈ names →
      (∀ v, vars key = some v →
        (updateFeatureStateTargets vars (some names) true).1 key
          = some (JSValue.str "*****") ∧
        (updateFeatureStateTargets vars (some names) true).2 key = some v ∧
        (v ≠ JSValue.str "*****" →
          (updateFeatureStateTargets vars (some names) true).1 key ≠ some v)) ∧
      (updateFeatureStateTargets vars (some names) false).1 key = none ∧
      (updateFeatureStateTargets vars (some names) false).2 key = none) ∧
    (key ∉ names → ∀ b : Bool,
      (updateFeatureStateTargets vars (some names) b).1 key = vars key ∧
      (updateFeatureStateTargets vars (some names) b).2 key = none) := by
  constructor
  · intro hk
    have htrue := redact_loop_processed true names vars emptyRecord key hnd hk
    have hfalse := redact_loop_processed false names vars emptyRecord key hnd hk
    simp only [if_true, Bool.false_eq_true, if_false, emptyRecord] at htrue hfalse
    simp only [updateFeatureStateTargets]
    refine ⟨?_, hfalse.1, hfalse.2⟩
    intro v hv
    rw [hv] at htrue
    simp only [Option.isSome_some, if_true] at htrue
    refine ⟨htrue.1, htrue.2, ?_⟩
    intro hvne
    rw [htrue.1]
    intro hcontra
    injection hcontra with hceq
    exact hvne hceq.symm
  · intro hk b
    have h := redact_loop_untouched b names vars emptyRecord key hk
    simp only [emptyRecord] at h
    simp only [updateFeatureStateTargets]
    exact ⟨h.1, h.2⟩

/-- C8 witness: the concrete scenario of the claim — `token` mapped to the
string `abc`, persisted with secrets enabled, yields a plain record carrying
the redaction marker for `token` and a secret record carrying the value. -/
theorem updateFeatureState_secret_redaction_witness :
    ("token" ∈ ["token"] ∧ (["token"] : List String).Nodup ∧
      tokenVars "token" = some (JSValue.str "abc")) ∧
    (updateFeatureStateTargets tokenVars (some ["token"]) true).1 "token"
      = some (JSValue.str "*****") ∧
    (updateFeatureStateTargets tokenVars (some ["token"]) true).2 "token"
      = some (JSValue.str "abc") ∧
    (JSValue.str "abc" ≠ JSValue.str "*****" →
      (updateFeatureStateTargets tokenVars (some ["token"]) true).1 "token"
        ≠ some (JSValue.str "abc")) :=
  ⟨⟨by decide, by decide, rfl⟩,
    ((updateFeatureState_secret_redaction tokenVars ["token"] "token"
      (by decide)).1 (by decide)).1 (JSValue.str "abc") rfl⟩

/-- C9: in `deployFeature` the merged variable set takes template defaults,
overridden by remote-stored instance variables, overridden by caller-supplied
variables (later wins); for defaults mapping x to 1, remote-stored mapping x
to 2 and y to 3, and caller override mapping y to 4, the merged result maps x
to 2, y to 4, and nothing else. -/
theorem deployFeature_variable_precedence (d i v : RecordMap) (k : String) :
    (∀ w, v k = some w → deployFeatureMergedVars d i v k = some w) ∧
    (v k = none → ∀ w, i k = some w → deployFeatureMergedVars d i v k = some w) ∧
    (v k = none → i k = none → deployFeatureMergedVars d i v k = d k) ∧
    (∀ k', deployFeatureMergedVars scenarioDefaults scenarioInstanceVars
      scenarioIncoming k' = scenarioMerged k') := by
  refine ⟨?_, ?_, ?_, ?_⟩
  · intro w hw
    unfold deployFeatureMergedVars
    rw [hw]
  · intro hv w hw
    unfold deployFeatureMergedVars
    rw [hv, hw]
  · intro hv hi
    unfold deployFeatureMergedVars
    rw [hv, hi]
  · intro k'
    unfold deployFeatureMergedVars scenarioDefaults scenarioInstanceVars
      scenarioIncoming scenarioMerged
    by_cases hy : k' = "y"
    · simp [hy]
    · by_cases hx : k' = "x" <;> simp [hx, hy]

/-- C9 witness: the caller override wins for y, the remote-stored value wins
over the default for x. -/
theorem deployFeature_variable_precedence_witness :
    scenarioIncoming "y" = some (JSValue.num 4) ∧
    deployFeatureMergedVars scenarioDefaults scenarioInstanceVars
      scenarioIncoming "y" = some (JSValue.num 4) ∧
    (scenarioIncoming "x" = none ∧ scenarioInstanceVars "x" = some (JSValue.num 2)) ∧
    deployFeatureMergedVars scenarioDefaults scenarioInstanceVars
      scenarioIncoming "x" = some (JSValue.num 2) :=
  ⟨rfl,
    (deployFeature_variable_precedence scenarioDefaults scenarioInstanceVars
      scenarioIncoming "y").1 (JSValue.num 4) rfl,
    ⟨rfl, rfl⟩,
    (deployFeature_variable_precedence scenarioDefaults scenarioInstanceVars
      scenarioIncoming "x").2.1 rfl (JSValue.num 2) rfl⟩

/-- C10: reading a feature record back overlays the plain-record variables
with the secret-record variables, secret values winning on key collisions;
consequently a feature written with secrets enabled reads back the original
secret value rather than the redaction marker, and non-secret keys read back
unchanged. -/
theorem featureState_readback_overlay (plain secret vars : RecordMap)
    (names : List String) (k : String) (hnd : names.Nodup) :
    (∀ v, secret k = some v →
      featureStateFromCustomObject plain secret k = some v) ∧
    (secret k = none →
      featureStateFromCustomObject plain secret k = plain k) ∧
    (k ∈ names → ∀ v, vars k = some v →
      featureStateFromCustomObject
        (updateFeatureStateTargets vars (some names) true).1
        (updateFeatureStateTargets vars (some names) true).2 k = some v) ∧
    (k ∉ names →
      featureStateFromCustomObject
        (updateFeatureStateTargets vars (some names) true).1
        (updateFeatureStateTargets vars (some names) true).2 k = vars k) := by
  refine ⟨?_, ?_, ?_, ?_⟩
  · intro v hv
    unfold featureStateFromCustomObject
    rw [hv]
  · intro hv
    unfold featureStateFromCustomObject
    rw [hv]
  · intro hk v hv
    have h := redact_loop_processed true names vars emptyRecord k hnd hk
    simp only [if_true] at h
    unfold featureStateFromCustomObject
    simp only [updateFeatureStateTargets]
    rw [h.2, hv]
  · intro hk
    have h := redact_loop_untouched true names vars emptyRecord k hk
    simp only [emptyRecord] at h
    unfold featureStateFromCustomObject
    simp only [updateFeatureStateTargets]
    rw [h.2, h.1]

/-- C10 witness: the secret value `abc` for `token`, written with secrets
enabled, reads back as `abc` — not as the redaction marker. -/
theorem featureState_readback_overlay_witness :
    ((["token"] : List String).Nodup ∧ "token" ∈ ["token"] ∧
      tokenVars "token" = some (JSValue.str "abc")) ∧
    featureStateFromCustomObject
      (updateFeatureStateTargets tokenVars (some ["token"]) true).1
      (updateFeatureStateTargets tokenVars (some ["token"]) true).2 "token"
      = some (JSValue.str "abc") :=
  ⟨⟨by decide, by decide, rfl⟩,
    (featureState_readback_overlay
      (updateFeatureStateTargets tokenVars (some ["token"]) true).1
      (updateFeatureStateTargets tokenVars (some ["token"]) true).2
      tokenVars ["token"] "token" (by decide)).2.2.1 (by decide)
      (JSValue.str "abc") rfl⟩

end B2CMigrations
